import Mathlib

/-!
Verification development for the PPM image loading / saving utilities of
`src/utils/Utils.h` (namespace `arm_compute::utils`): `parse_ppm_header`,
`PPMLoader::open`, `PPMLoader::fill_image` and `save_to_ppm`.

Streams are modelled as lists of bytes (`List Nat`); a `PPMLoader` holds
the bytes from the current stream position to end-of-stream, so
`fs.length` is exactly the `end_position - current_position` quantity
computed by the `tellg`/`seekg` pair in `fill_image`.  Tensors are
modelled as contiguous row-major byte lists (the layout produced by
`TensorInfo(width, height, format)` with no padding).  The `map`/`unmap`
calls (real operations for a `CLTensor`, no-ops otherwise) are modelled
by counting how many times each is executed on the path taken, so that
the scoped-access discipline can be stated.
-/

namespace ComputeUtils

/-- Pixel formats relevant here.  `U8` is single-channel grayscale
(element size 1), `RGB888` is interleaved colour (element size 3).
`U16` stands in for the remaining members of the library's `Format`
enumeration, all of which the PPM utilities reject. -/
inductive Format
  | U8
  | RGB888
  | U16
deriving DecidableEq

/-- Element size in bytes, as reported by `TensorInfo::element_size()`. -/
def Format.elementSize : Format → Nat
  | .U8 => 1
  | .RGB888 => 3
  | .U16 => 2

/-- A 2-dimensional image tensor: `data` holds the raw bytes in
contiguous row-major layout (length `width * height * elementSize`);
`numDims` models `info()->num_dimensions()` (the library collapses
trailing size-1 dimensions, so e.g. a `w x 1` image may report 1). -/
structure Image where
  width : Nat
  height : Nat
  format : Format
  numDims : Nat
  data : List Nat
deriving DecidableEq

/-- An open loader session: the bytes remaining in the stream plus the
parsed `_width` and `_height` fields (`PPMLoader` stores only these two;
the parsed max value is a local of `open` and is discarded). -/
structure PPMLoader where
  fs : List Nat
  width : Nat
  height : Nat
deriving DecidableEq

/-! ### Exact binary32 (IEEE single precision) arithmetic model

The `U8` branch of `fill_image` converts RGB to grayscale with

  `*out.ptr() = 0.2126f * red + 0.7152f * green + 0.0722f * blue;`

i.e. `float` arithmetic (binary32, round to nearest, ties to even, one
rounding per operation, sums left-associated) followed by the implicit
conversion to `unsigned char` (truncation toward zero).

Every `float` value arising in this expression is either `0` or lies in
`[2 ^ (-4), 2 ^ 9)` (the three weights are in `[0.0722, 0.7152]`, the
products of a weight with `1..255` are in `[0.0722, 183]`, and the
partial sums only grow), so each such value has exponent `e` with
`-4 ≤ e ≤ 8` and is an exact integer multiple of `2 ^ (-27)`.  We
therefore represent a float value `v` exactly by the natural number
`v * 2 ^ 27`, and implement one primitive, `round32S a b`: the binary32
rounding of the exact ratio `a / b`, returned at scale `2 ^ 27`. -/

/-- Fuelled floor of log base 2 (one fuel unit per halving; the callers
pass the argument itself as fuel, which always suffices). -/
def log2Fuel : Nat → Nat → Nat
  | 0, _ => 0
  | f + 1, n => if n < 2 then 0 else log2Fuel f (n / 2) + 1

/-- Floor of log base 2 of a positive natural number. -/
def log2Nat (n : Nat) : Nat :=
  log2Fuel n n

/-- Round the ratio `a / b` (with `b > 0`) to the nearest integer, ties
to even. -/
def roundEvenDiv (a b : Nat) : Nat :=
  let q := a / b
  let r := a % b
  if 2 * r < b then q
  else if b < 2 * r then q + 1
  else if q % 2 = 0 then q else q + 1

/-- Binary32 (round to nearest, ties to even) rounding of the exact
nonnegative ratio `a / b`, returned scaled by `2 ^ 27`.

Requires `a = 0` or `2 ^ (-4) ≤ a / b < 2 ^ 23` (every call below
satisfies this, see the module comment): then with
`eS = 64 + floor(log2 (a / b))` we have `60 ≤ eS ≤ 86`, the rounded
significand `n = roundEven(a * 2 ^ (87 - eS) / b)` satisfies
`2 ^ 23 ≤ n ≤ 2 ^ 24`, and the rounded value is
`n * 2 ^ (eS - 64 - 23) = (n * 2 ^ (eS - 60)) * 2 ^ (-27)`. -/
def round32S (a b : Nat) : Nat :=
  if a = 0 then 0
  else
    let eS := log2Nat (a * 2 ^ 64 / b)
    roundEvenDiv (a * 2 ^ (87 - eS)) b * 2 ^ (eS - 60)

/-- Scale factor of the fixed-point float representation. -/
def fscale : Nat := 2 ^ 27

/-- The grayscale byte computed by the `U8` branch of `fill_image` for
the source bytes `(r, g, b)`: binary32 evaluation of
`0.2126f * r + 0.7152f * g + 0.0722f * b` (each literal, product and
sum rounded once), then conversion to `unsigned char` by truncation
toward zero (the value is nonnegative, so truncation is `/ fscale`). -/
def lumF (r g b : Nat) : Nat :=
  let w1 := round32S 2126 10000
  let w2 := round32S 7152 10000
  let w3 := round32S 722 10000
  let t1 := round32S (w1 * r) fscale
  let t2 := round32S (w2 * g) fscale
  let t3 := round32S (w3 * b) fscale
  let s1 := round32S (t1 + t2) fscale
  let s2 := round32S (s1 + t3) fscale
  s2 / fscale

/-! ### Header parsing

`parse_ppm_header` is declared in `src/utils/Utils.h` but its
implementation (`utils/Utils.cpp`) is not part of the sources given, so
the functions of this section are modelled from the spec. -/

/-- Whitespace bytes (`isspace`): HT, LF, VT, FF, CR, space. -/
def isWS (b : Nat) : Bool :=
  b = 32 || b = 10 || b = 9 || b = 13 || b = 11 || b = 12

/-- ASCII digit bytes. -/
def isDigit (b : Nat) : Bool :=
  48 ≤ b && b ≤ 57

/-- Modelled from the spec: the comment/whitespace skipping of the
missing `parse_ppm_header` implementation — "repeatedly skip whitespace
and, when a `#` is encountered, discard through end-of-line".  The flag
is true while inside a `#` comment (byte 35 starts one, byte 10 ends
it). -/
def skipGo : Bool → List Nat → List Nat
  | _, [] => []
  | true, b :: rest => skipGo (b ≠ 10) rest
  | false, b :: rest =>
    if isWS b then skipGo false rest
    else if b = 35 then skipGo true rest
    else b :: rest

/-- Split a leading run of ASCII digits from the rest of the bytes. -/
def takeDigits : List Nat → List Nat × List Nat
  | [] => ([], [])
  | b :: rest =>
    if isDigit b then
      let p := takeDigits rest
      (b :: p.1, p.2)
    else ([], b :: rest)

/-- Value of a big-endian list of ASCII digit bytes, with accumulator. -/
def digitsVal : List Nat → Nat → Nat
  | [], acc => acc
  | b :: rest, acc => digitsVal rest (acc * 10 + (b - 48))

/-- Modelled from the spec: reading one unsigned decimal integer token
of the missing `parse_ppm_header` implementation.  Fails when no digit
is present (malformed header). -/
def parseNat (l : List Nat) : Option (Nat × List Nat) :=
  let p := takeDigits l
  match p.1 with
  | [] => none
  | ds => some (digitsVal ds 0, p.2)

/-- Modelled from the spec: `parse_ppm_header` (declared at
`src/utils/Utils.h:81`; its implementation is not among the given
sources).  Reads the two-byte magic, which must be exactly `P6`
(bytes 80, 54); then three whitespace/comment-separated unsigned
integers (width, height, max value); then consumes exactly one single
whitespace character and returns with the remaining bytes positioned at
the first pixel byte.  Any malformed or truncated header yields
`none`. -/
def parse_ppm_header (l : List Nat) : Option (Nat × Nat × Nat × List Nat) :=
  match l with
  | b0 :: b1 :: rest =>
    if b0 = 80 ∧ b1 = 54 then
      match parseNat (skipGo false rest) with
      | some (w, r1) =>
        match parseNat (skipGo false r1) with
        | some (h, r2) =>
          match parseNat (skipGo false r2) with
          | some (mv, r3) =>
            match r3 with
            | c :: r4 => if isWS c then some (w, h, mv, r4) else none
            | [] => none
          | none => none
        | none => none
      | none => none
    else none
  | _ => none

/-- Decidable equality for `Except` results (used to evaluate the
embeddings on concrete inputs). -/
instance {ε α : Type} [DecidableEq ε] [DecidableEq α] : DecidableEq (Except ε α) := fun a b =>
  match a, b with
  | .error e, .error f =>
    if h : e = f then isTrue (by rw [h]) else isFalse (by intro hh; cases hh; exact h rfl)
  | .ok x, .ok y =>
    if h : x = y then isTrue (by rw [h]) else isFalse (by intro hh; cases hh; exact h rfl)
  | .error _, .ok _ => isFalse (by intro hh; cases hh)
  | .ok _, .error _ => isFalse (by intro hh; cases hh)

/-! ### PPMLoader::open -/

/-- Failure modes of `PPMLoader::open`: a stream/parse failure caught
and re-raised as `ARM_COMPUTE_ERROR("Accessing %s: %s", ...)`, or the
fatal `ARM_COMPUTE_ERROR_ON_MSG(max_val >= 256, ...)` check. -/
inductive OpenError
  | accessFailure
  | maxValTooBig
deriving DecidableEq

/-- Embedding of `PPMLoader::open` (src/utils/Utils.h:139-156) on a
fresh loader (`open` on an already open session is the precondition
error `ARM_COMPUTE_ERROR_ON(is_open())`, not modelled since every claim
starts from a fresh session).  Parses the header; on success checks
`max_val >= 256` and, when accepted, stores only the width and the
height (plus the stream position, here the remaining bytes). -/
def PPMLoader.openFile (file : List Nat) : Except OpenError PPMLoader :=
  match parse_ppm_header file with
  | none => .error .accessFailure
  | some (w, h, mv, rest) =>
    if 256 ≤ mv then .error .maxValTooBig
    else .ok { fs := rest, width := w, height := h }

/-! ### PPMLoader::fill_image -/

/-- Failure modes of `fill_image`: the precondition assertions before
the `try` block (`ARM_COMPUTE_ERROR_ON` on open/dimensions/format), the
fatal `ARM_COMPUTE_ERROR_ON_MSG(..., "Not enough data in file")` size
check, and an `std::ifstream::failure` raised by a read and re-raised
as `ARM_COMPUTE_ERROR("Loading PPM file: %s", ...)`. -/
inductive FillError
  | precondition
  | notEnoughData
  | streamFailure
deriving DecidableEq

/-- Result of a `fill_image` run: the outcome (on success, the bytes
written to the destination in row-major order together with the bytes
left in the stream), plus how many times `map` and `unmap` executed. -/
structure FillOutcome where
  result : Except FillError (List Nat × List Nat)
  maps : Nat
  unmaps : Nat
deriving DecidableEq

/-- The `U8` loop of `fill_image`: the window covers every pixel
coordinate (x fastest, then y), which visits the contiguous destination
in the same row-major order in which the pixel triples are read, so it
is the per-pixel loop: for each of `n` pixels read three bytes and
write `lumF` of them.  A read past end-of-stream raises
(`failbit` exceptions are enabled), modelled as `none`. -/
def fillGray : Nat → List Nat → Option (List Nat × List Nat)
  | 0, s => some ([], s)
  | n + 1, r :: g :: b :: s =>
    match fillGray n s with
    | some (out, rest) => some (lumF r g b :: out, rest)
    | none => none
  | _ + 1, _ => none

/-- The `RGB888` loop of `fill_image` (and the row loop of
`save_to_ppm`'s reader side): `n` iterations, each transferring one
full row of `rowBytes = width * element_size` bytes from the stream to
the next destination row.  A short read raises, modelled as `none`. -/
def fillRows (rowBytes : Nat) : Nat → List Nat → Option (List Nat × List Nat)
  | 0, s => some ([], s)
  | n + 1, s =>
    if rowBytes ≤ s.length then
      match fillRows rowBytes n (s.drop rowBytes) with
      | some (out, rest) => some (s.take rowBytes ++ out, rest)
      | none => none
    else none

/-- Embedding of `PPMLoader::fill_image` (src/utils/Utils.h:186-264)
on an open session `ld`.  In source order: the dimension and format
precondition assertions (before the `try` block, hence before `map`);
`map(image, true)`; the once-only size check
`(end_position - current_position) <
 image.info()->tensor_shape().total_size() * image.info()->element_size()`
(note: the element size of the *destination*); then the per-format copy
loop; then `unmap(image)`.  The fatal size-check error and the caught
stream failure both leave the function without running `unmap`. -/
def fill_image (ld : PPMLoader) (img : Image) : FillOutcome :=
  if ¬(img.width = ld.width ∧ img.height = ld.height) then
    { result := .error .precondition, maps := 0, unmaps := 0 }
  else if ¬(img.format = .U8 ∨ img.format = .RGB888) then
    { result := .error .precondition, maps := 0, unmaps := 0 }
  else if ld.fs.length < img.width * img.height * img.format.elementSize then
    { result := .error .notEnoughData, maps := 1, unmaps := 0 }
  else
    match img.format with
    | .U8 =>
      match fillGray (img.width * img.height) ld.fs with
      | some (out, rest) => { result := .ok (out, rest), maps := 1, unmaps := 1 }
      | none => { result := .error .streamFailure, maps := 1, unmaps := 0 }
    | .RGB888 =>
      match fillRows (img.width * Format.elementSize .RGB888) img.height ld.fs with
      | some (out, rest) => { result := .ok (out, rest), maps := 1, unmaps := 1 }
      | none => { result := .error .streamFailure, maps := 1, unmaps := 0 }
    | .U16 =>
      { result := .error .precondition, maps := 1, unmaps := 0 }

/-! ### save_to_ppm -/

/-- Failure modes of `save_to_ppm`: the precondition assertions at
entry, or an `std::ofstream::failure` re-raised as
`ARM_COMPUTE_ERROR("Writing %s: (%s)", ...)`. -/
inductive SaveError
  | precondition
  | writeFailure
deriving DecidableEq

/-- Result of a `save_to_ppm` run: the outcome (on success, every byte
written to the file), plus how many times `map` and `unmap` executed. -/
structure SaveOutcome where
  result : Except SaveError (List Nat)
  maps : Nat
  unmaps : Nat
deriving DecidableEq

/-- Decimal ASCII digits of `n / 10 ^ k`-style peeling, with fuel (the
number itself is ample fuel, since `n / 10 < n` for `n > 0`).  Empty
for `n = 0`. -/
def natToAsciiAux : Nat → Nat → List Nat
  | 0, _ => []
  | fuel + 1, n =>
    if n = 0 then []
    else natToAsciiAux fuel (n / 10) ++ [48 + n % 10]

/-- Decimal ASCII rendering of a natural number, as produced by
`operator<<` on an `unsigned int` (no sign, no padding). -/
def natToAscii (n : Nat) : List Nat :=
  if n = 0 then [48] else natToAsciiAux n n

/-- The header bytes written by
`fs << "P6\n" << width << " " << height << " 255\n";`
i.e. `P6`, LF, decimal width, space, decimal height, space, `255`,
LF. -/
def headerBytes (w h : Nat) : List Nat :=
  [80, 54, 10] ++ natToAscii w ++ [32] ++ natToAscii h ++ [32, 50, 53, 53, 10]

/-- The `U8` loop of `save_to_ppm`: the window covers every pixel
(x fastest, then y), visiting the contiguous source row-major, and for
each source byte `value` executes `fs << value << value << value;`. -/
def grayPixels : List Nat → List Nat
  | [] => []
  | v :: rest => v :: v :: v :: grayPixels rest

/-- The `RGB888` loop of `save_to_ppm`: `n` row iterations (the x
dimension steps by the full width), each bulk-writing
`rowBytes = width * element_size` bytes from the next source row. -/
def rowChunks (rowBytes : Nat) : Nat → List Nat → List Nat
  | 0, _ => []
  | n + 1, d => d.take rowBytes ++ rowChunks rowBytes n (d.drop rowBytes)

/-- Embedding of `save_to_ppm` (src/utils/Utils.h:280-349).  In source
order: the format assertion `ARM_COMPUTE_ERROR_ON_FORMAT_NOT_IN` and
the dimension assertion `ARM_COMPUTE_ERROR_ON(num_dimensions() > 2)`,
both before the `try` block; then (in the `try`) the header is written,
`map(tensor, true)` runs, the per-format pixel loop writes the pixel
bytes, and `unmap(tensor)` runs.  No write failure is injected here:
the model's streams always accept bytes, so the `catch` path does not
arise (`writeFailure` is kept to make the error family explicit). -/
def save_to_ppm (t : Image) : SaveOutcome :=
  if ¬(t.format = .RGB888 ∨ t.format = .U8) then
    { result := .error .precondition, maps := 0, unmaps := 0 }
  else if 2 < t.numDims then
    { result := .error .precondition, maps := 0, unmaps := 0 }
  else
    match t.format with
    | .U8 =>
      { result := .ok (headerBytes t.width t.height ++ grayPixels t.data),
        maps := 1, unmaps := 1 }
    | .RGB888 =>
      { result := .ok (headerBytes t.width t.height ++
          rowChunks (t.width * Format.elementSize .RGB888) t.height t.data),
        maps := 1, unmaps := 1 }
    | .U16 =>
      { result := .error .precondition, maps := 1, unmaps := 1 }

/-- The bytes written by the `U8` branch of `fill_image`: `lumF` of each
consecutive source triple, for `n` pixels (the shape `fillGray` produces
on success). -/
def lumTriples : Nat → List Nat → List Nat
  | 0, _ => []
  | n + 1, r :: g :: b :: s => lumF r g b :: lumTriples n s
  | _ + 1, _ => []

/-! ### Helper lemmas -/

theorem digitsVal_append (xs ys : List Nat) (acc : Nat) :
    digitsVal (xs ++ ys) acc = digitsVal ys (digitsVal xs acc) := by
  induction xs generalizing acc with
  | nil => rfl
  | cons b rest ih => simp [digitsVal, ih]

theorem natToAsciiAux_val (fuel : Nat) :
    ∀ n, n ≤ fuel → ∀ acc,
      digitsVal (natToAsciiAux fuel n) acc =
        acc * 10 ^ (natToAsciiAux fuel n).length + n := by
  induction fuel with
  | zero =>
    intro n hn acc
    have h0 : n = 0 := Nat.le_zero.mp hn
    subst h0
    simp [natToAsciiAux, digitsVal]
  | succ f ih =>
    intro n hn acc
    by_cases h0 : n = 0
    · subst h0; simp [natToAsciiAux, digitsVal]
    · have hstep : natToAsciiAux (f + 1) n =
          natToAsciiAux f (n / 10) ++ [48 + n % 10] := by
        simp [natToAsciiAux, h0]
      have hle : n / 10 ≤ f := by
        have := Nat.div_lt_self (Nat.pos_of_ne_zero h0) (by norm_num : 1 < 10)
        omega
      rw [hstep, digitsVal_append, ih (n / 10) hle acc]
      simp only [digitsVal, List.length_append, List.length_singleton]
      have hmod : 48 + n % 10 - 48 = n % 10 := by omega
      rw [hmod, pow_succ]
      have hdm : 10 * (n / 10) + n % 10 = n := Nat.div_add_mod n 10
      set k := 10 ^ (natToAsciiAux f (n / 10)).length
      ring_nf
      omega

theorem natToAscii_val (n : Nat) : digitsVal (natToAscii n) 0 = n := by
  by_cases h0 : n = 0
  · subst h0; simp [natToAscii, digitsVal]
  · simp only [natToAscii, if_neg h0]
    simpa using natToAsciiAux_val n n le_rfl 0

theorem natToAsciiAux_digits (fuel : Nat) :
    ∀ n b, b ∈ natToAsciiAux fuel n → isDigit b = true := by
  induction fuel with
  | zero => intro n b hb; simp [natToAsciiAux] at hb
  | succ f ih =>
    intro n b hb
    by_cases h0 : n = 0
    · simp [natToAsciiAux, h0] at hb
    · simp only [natToAsciiAux, if_neg h0, List.mem_append,
        List.mem_singleton] at hb
      rcases hb with hb | hb
      · exact ih _ _ hb
      · subst hb
        have : n % 10 < 10 := Nat.mod_lt _ (by norm_num)
        simp [isDigit]
        omega

theorem natToAscii_digits (n b : Nat) (hb : b ∈ natToAscii n) :
    isDigit b = true := by
  by_cases h0 : n = 0
  · subst h0
    simp [natToAscii] at hb
    subst hb
    decide
  · simp only [natToAscii, if_neg h0] at hb
    exact natToAsciiAux_digits n n b hb

theorem natToAscii_ne_nil (n : Nat) : natToAscii n ≠ [] := by
  by_cases h0 : n = 0
  · subst h0; simp [natToAscii]
  · simp only [natToAscii, if_neg h0]
    cases n with
    | zero => exact absurd rfl h0
    | succ m => simp [natToAsciiAux, h0]

theorem takeDigits_cons_not (b : Nat) (rest : List Nat)
    (hb : isDigit b = false) :
    takeDigits (b :: rest) = ([], b :: rest) := by
  simp [takeDigits, hb]

theorem takeDigits_append (ds rest : List Nat)
    (h : ∀ b ∈ ds, isDigit b = true) :
    takeDigits (ds ++ rest) = (ds ++ (takeDigits rest).1, (takeDigits rest).2) := by
  induction ds with
  | nil => simp
  | cons b t ih =>
    have hb : isDigit b = true := h b (by simp)
    simp [takeDigits, hb, ih (fun x hx => h x (by simp [hx]))]

theorem parseNat_eq (ds : List Nat) (b : Nat) (rest : List Nat)
    (hds : ∀ x ∈ ds, isDigit x = true) (hne : ds ≠ [])
    (hb : isDigit b = false) :
    parseNat (ds ++ b :: rest) = some (digitsVal ds 0, b :: rest) := by
  have h1 := takeDigits_append ds (b :: rest) hds
  rw [takeDigits_cons_not b rest hb] at h1
  simp only [List.append_nil] at h1
  cases ds with
  | nil => exact absurd rfl hne
  | cons d t =>
    simp only [List.cons_append] at h1 ⊢
    simp [parseNat, h1]

theorem parseNat_natToAscii (n b : Nat) (rest : List Nat)
    (hb : isDigit b = false) :
    parseNat (natToAscii n ++ b :: rest) = some (n, b :: rest) := by
  rw [parseNat_eq (natToAscii n) b rest (fun x hx => natToAscii_digits n x hx)
    (natToAscii_ne_nil n) hb, natToAscii_val]

theorem skipGo_ws (b : Nat) (l : List Nat) (hb : isWS b = true) :
    skipGo false (b :: l) = skipGo false l := by
  simp [skipGo, hb]

theorem skipGo_stop (b : Nat) (l : List Nat) (hb : isWS b = false)
    (h35 : b ≠ 35) :
    skipGo false (b :: l) = b :: l := by
  simp [skipGo, hb, h35]

theorem isDigit_bounds (b : Nat) (hb : isDigit b = true) : 48 ≤ b ∧ b ≤ 57 := by
  simpa [isDigit] using hb

theorem skipGo_digit (b : Nat) (l : List Nat) (hb : isDigit b = true) :
    skipGo false (b :: l) = b :: l := by
  obtain ⟨h1, h2⟩ := isDigit_bounds b hb
  refine skipGo_stop b l ?_ (by omega)
  simp [isWS]
  omega

theorem skipGo_natToAscii (n : Nat) (rest : List Nat) :
    skipGo false (natToAscii n ++ rest) = natToAscii n ++ rest := by
  cases hda : natToAscii n with
  | nil => exact absurd hda (natToAscii_ne_nil n)
  | cons d t =>
    have hd : isDigit d = true := natToAscii_digits n d (by rw [hda]; simp)
    simpa using skipGo_digit d (t ++ rest) hd

theorem parse_headerBytes (w h : Nat) (data : List Nat) :
    parse_ppm_header (headerBytes w h ++ data) = some (w, h, 255, data) := by
  have hshape : headerBytes w h ++ data =
      80 :: 54 :: (10 :: (natToAscii w ++
        32 :: (natToAscii h ++ 32 :: 50 :: 53 :: 53 :: 10 :: data))) := by
    simp [headerBytes]
  rw [hshape]
  have h1 : skipGo false (10 :: (natToAscii w ++
      32 :: (natToAscii h ++ 32 :: 50 :: 53 :: 53 :: 10 :: data))) =
      natToAscii w ++ 32 :: (natToAscii h ++ 32 :: 50 :: 53 :: 53 :: 10 :: data) := by
    rw [skipGo_ws 10 _ (by decide), skipGo_natToAscii]
  have h2 : skipGo false (32 :: (natToAscii h ++ 32 :: 50 :: 53 :: 53 :: 10 :: data)) =
      natToAscii h ++ 32 :: 50 :: 53 :: 53 :: 10 :: data := by
    rw [skipGo_ws 32 _ (by decide), skipGo_natToAscii]
  have h3 : skipGo false (32 :: 50 :: 53 :: 53 :: 10 :: data) =
      50 :: 53 :: 53 :: 10 :: data := by
    rw [skipGo_ws 32 _ (by decide), skipGo_digit 50 _ (by decide)]
  have h4 : parseNat (50 :: 53 :: 53 :: 10 :: data) = some (255, 10 :: data) := by
    have := parseNat_eq [50, 53, 53] 10 data (by decide) (by simp) (by decide)
    simpa [digitsVal] using this
  have hws : isWS 10 = true := by decide
  simp [parse_ppm_header, h1, h2, h3, h4,
    parseNat_natToAscii w 32 _ (by decide),
    parseNat_natToAscii h 32 _ (by decide), hws]

theorem rowChunks_eq_self (rb : Nat) :
    ∀ (n : Nat) (d : List Nat), d.length = rb * n → rowChunks rb n d = d := by
  intro n
  induction n with
  | zero =>
    intro d hd
    simp only [Nat.mul_zero] at hd
    rw [List.length_eq_zero] at hd
    simp [rowChunks, hd]
  | succ n ih =>
    intro d hd
    have hdrop : (d.drop rb).length = rb * n := by
      simp only [List.length_drop, hd, Nat.mul_succ]
      omega
    simp [rowChunks, ih (d.drop rb) hdrop]

theorem rowChunks_nil (rb n : Nat) : rowChunks rb n [] = [] := by
  induction n with
  | zero => rfl
  | succ n ih => simp [rowChunks, ih]

theorem fillRows_exact (rb : Nat) :
    ∀ (n : Nat) (d : List Nat), d.length = rb * n → fillRows rb n d = some (d, []) := by
  intro n
  induction n with
  | zero =>
    intro d hd
    simp only [Nat.mul_zero] at hd
    rw [List.length_eq_zero] at hd
    simp [fillRows, hd]
  | succ n ih =>
    intro d hd
    have hle : rb ≤ d.length := by rw [hd, Nat.mul_succ]; omega
    have hdrop : (d.drop rb).length = rb * n := by
      simp only [List.length_drop, hd, Nat.mul_succ]
      omega
    simp [fillRows, hle, ih (d.drop rb) hdrop]

theorem fillRows_zero_width : ∀ (n : Nat) (s : List Nat),
    fillRows 0 n s = some ([], s) := by
  intro n
  induction n with
  | zero => intro s; rfl
  | succ n ih => intro s; simp [fillRows, ih s]

theorem grayPixels_flatten (d : List Nat) :
    grayPixels d = (d.map fun v => [v, v, v]).flatten := by
  induction d with
  | nil => rfl
  | cons v t ih => simp [grayPixels, ih]

theorem grayPixels_length (d : List Nat) :
    (grayPixels d).length = 3 * d.length := by
  induction d with
  | nil => rfl
  | cons v t ih =>
    simp only [grayPixels, List.length_cons, ih]
    omega

theorem fillGray_eq (n : Nat) :
    ∀ s : List Nat, 3 * n ≤ s.length →
      fillGray n s = some (lumTriples n s, s.drop (3 * n)) := by
  induction n with
  | zero => intro s hlen; simp [fillGray, lumTriples]
  | succ n ih =>
    intro s hlen
    match s with
    | [] => simp only [List.length_nil] at hlen; omega
    | [r] => simp only [List.length_cons, List.length_nil] at hlen; omega
    | [r, g] => simp only [List.length_cons, List.length_nil] at hlen; omega
    | r :: g :: b :: t =>
      have ht : 3 * n ≤ t.length := by
        simp only [List.length_cons] at hlen
        omega
      have hdrop : (r :: g :: b :: t).drop (3 * (n + 1)) = t.drop (3 * n) := by
        have h3 : 3 * (n + 1) = 3 * n + 1 + 1 + 1 := by ring
        rw [h3]
        rfl
      simp [fillGray, lumTriples, ih t ht, hdrop]

theorem lumTriples_getD (n : Nat) :
    ∀ (s : List Nat) (i : Nat), i < n → 3 * n ≤ s.length →
      (lumTriples n s).getD i 0 =
        lumF (s.getD (3 * i) 0) (s.getD (3 * i + 1) 0) (s.getD (3 * i + 2) 0) := by
  induction n with
  | zero => intro s i hi; omega
  | succ n ih =>
    intro s i hi hlen
    match s with
    | [] => simp only [List.length_nil] at hlen; omega
    | [r] => simp only [List.length_cons, List.length_nil] at hlen; omega
    | [r, g] => simp only [List.length_cons, List.length_nil] at hlen; omega
    | r :: g :: b :: t =>
      have ht : 3 * n ≤ t.length := by
        simp only [List.length_cons] at hlen
        omega
      cases i with
      | zero => simp [lumTriples]
      | succ i =>
        have hi' : i < n := by omega
        have e0 : 3 * (i + 1) = 3 * i + 1 + 1 + 1 := by ring
        have e1 : 3 * (i + 1) + 1 = 3 * i + 1 + 1 + 1 + 1 := by ring
        have e2 : 3 * (i + 1) + 2 = 3 * i + 1 + 1 + 1 + 1 + 1 := by ring
        simp only [lumTriples, List.getD_cons_succ, e0, e1, e2]
        exact ih t i hi' ht

/-! ### Claims -/

/-- C1 (code bug, claim right / code wrong): the claim says `fill`
checks once, before reading any pixel, that at least
`width * height * 3` bytes remain (3 source bytes per pixel even for a
`Grayscale8` destination), and fails without reading past end-of-stream
otherwise.  The code compares the remaining bytes against
`tensor_shape().total_size() * element_size()` of the *destination*
(1 byte per pixel for `U8`): a 1x1 `U8` destination with a single
remaining byte — fewer than the 3 the claim requires — passes the
code's check, and `fill` proceeds to read, exhausts the stream
mid-pixel, and fails with the caught generic stream failure instead of
the up-front "Not enough data in file" error.  For an `RGB888`
destination the element size is 3 and the check fires up front as the
claim states. -/
theorem claim_C1_size_check_bug :
    (([7] : List Nat).length < 1 * 1 * 3) ∧
    ¬(([7] : List Nat).length < 1 * 1 * Format.elementSize .U8) ∧
    fill_image ⟨[7], 1, 1⟩ ⟨1, 1, .U8, 2, [0]⟩ =
      ⟨.error .streamFailure, 1, 0⟩ ∧
    fill_image ⟨[9, 9], 1, 1⟩ ⟨1, 1, .RGB888, 2, [0, 0, 0]⟩ =
      ⟨.error .notEnoughData, 1, 0⟩ := by
  decide

/-- C2: writing an `RGB888` buffer with `save_to_ppm` and reloading the
resulting file through `PPMLoader::open` followed by `fill_image` into
an `RGB888` buffer of the same `w x h` shape yields pixel data
byte-identical to the original buffer (and consumes the stream
exactly). -/
theorem claim_C2_roundtrip (w h : Nat) (data old : List Nat)
    (hw : 0 < w) (hh : 0 < h) (hlen : data.length = 3 * (w * h)) :
    ∃ file ld,
      (save_to_ppm ⟨w, h, .RGB888, 2, data⟩).result = .ok file ∧
      PPMLoader.openFile file = .ok ld ∧
      fill_image ld ⟨w, h, .RGB888, 2, old⟩ = ⟨.ok (data, []), 1, 1⟩ := by
  have he : Format.elementSize .RGB888 = 3 := rfl
  have hlen3 : data.length = w * Format.elementSize .RGB888 * h := by
    rw [hlen, he]; ring
  have hchunks : rowChunks (w * Format.elementSize .RGB888) h data = data :=
    rowChunks_eq_self _ h data hlen3
  have hfill : fillRows (w * Format.elementSize .RGB888) h data = some (data, []) :=
    fillRows_exact _ h data hlen3
  refine ⟨headerBytes w h ++ data, ⟨data, w, h⟩, ?_, ?_, ?_⟩
  · simp [save_to_ppm, hchunks]
  · simp [PPMLoader.openFile, parse_headerBytes]
  · have hck : ¬(data.length < w * h * Format.elementSize .RGB888) := by
      have h3 : w * h * Format.elementSize .RGB888 = 3 * (w * h) := by
        rw [he]; ring
      rw [hlen, h3]
      exact lt_irrefl _
    simp [fill_image, hck, hfill]

/-- Witness for C2 at `w = h = 1`, `data = [10, 20, 30]`. -/
theorem claim_C2_roundtrip_witness :
    (0 < 1 ∧ 0 < 1 ∧ ([10, 20, 30] : List Nat).length = 3 * (1 * 1)) ∧
    (∃ file ld,
      (save_to_ppm ⟨1, 1, .RGB888, 2, [10, 20, 30]⟩).result = .ok file ∧
      PPMLoader.openFile file = .ok ld ∧
      fill_image ld ⟨1, 1, .RGB888, 2, [0, 0, 0]⟩ =
        ⟨.ok ([10, 20, 30], []), 1, 1⟩) :=
  ⟨⟨by decide, by decide, by decide⟩,
    claim_C2_roundtrip 1 1 [10, 20, 30] [0, 0, 0] (by decide) (by decide)
      (by decide)⟩

/-- C3: during a fill into a `Grayscale8` destination, each destination
byte is the fixed-weight luminance of the corresponding source triple —
the binary32 evaluation of `0.2126 R + 0.7152 G + 0.0722 B` truncated
to an 8-bit integer (`lumF`, a pure function, hence deterministic) —
and on the boundary triples: `(0,0,0) ↦ 0`, `(255,0,0) ↦ 54`, and
`(255,255,255) ↦ 254` or `255` depending on rounding (the model
evaluates it to `255`). -/
theorem claim_C3_grayscale (w h : Nat) (fs old : List Nat)
    (hlen : 3 * (w * h) ≤ fs.length) :
    fill_image ⟨fs, w, h⟩ ⟨w, h, .U8, 2, old⟩ =
      ⟨.ok (lumTriples (w * h) fs, fs.drop (3 * (w * h))), 1, 1⟩ ∧
    (∀ i, i < w * h →
      (lumTriples (w * h) fs).getD i 0 =
        lumF (fs.getD (3 * i) 0) (fs.getD (3 * i + 1) 0)
          (fs.getD (3 * i + 2) 0)) ∧
    lumF 0 0 0 = 0 ∧ lumF 255 0 0 = 54 ∧
    (lumF 255 255 255 = 254 ∨ lumF 255 255 255 = 255) := by
  refine ⟨?_, fun i hi => lumTriples_getD (w * h) fs i hi hlen,
    by decide, by decide, by decide⟩
  have hck : ¬(fs.length < w * h * Format.elementSize .U8) := by
    have he : w * h * Format.elementSize .U8 = w * h := by
      show w * h * 1 = w * h
      ring
    rw [he]
    omega
  simp [fill_image, hck, fillGray_eq (w * h) fs hlen]

/-- Witness for C3 at a 1x1 image with stream `[255, 0, 0]`. -/
theorem claim_C3_grayscale_witness :
    (3 * (1 * 1) ≤ ([255, 0, 0] : List Nat).length) ∧
    fill_image ⟨[255, 0, 0], 1, 1⟩ ⟨1, 1, .U8, 2, [0]⟩ =
      ⟨.ok (lumTriples (1 * 1) [255, 0, 0],
        ([255, 0, 0] : List Nat).drop (3 * (1 * 1))), 1, 1⟩ :=
  ⟨by decide, (claim_C3_grayscale 1 1 [255, 0, 0] [0] (by decide)).1⟩

/-- C4: for a `Grayscale8` buffer, `save_to_ppm` emits the header
`"P6\n{width} {height} 255\n"` (always a P6 colour header) followed,
per pixel in row-major order, by the source byte written three times
(`R = G = B = value`). -/
theorem claim_C4_gray_save (w h : Nat) (data : List Nat)
    (hlen : data.length = w * h) :
    save_to_ppm ⟨w, h, .U8, 2, data⟩ =
      ⟨.ok (([80, 54, 10] ++ natToAscii w ++ [32] ++ natToAscii h ++
          [32, 50, 53, 53, 10]) ++ (data.map fun v => [v, v, v]).flatten),
        1, 1⟩ := by
  simp [save_to_ppm, headerBytes, grayPixels_flatten]

/-- Witness for C4 at a 1x1 image of value 200 (output pixel bytes
`[200, 200, 200]`). -/
theorem claim_C4_gray_save_witness :
    (([200] : List Nat).length = 1 * 1) ∧
    save_to_ppm ⟨1, 1, .U8, 2, [200]⟩ =
      ⟨.ok (([80, 54, 10] ++ natToAscii 1 ++ [32] ++ natToAscii 1 ++
          [32, 50, 53, 53, 10]) ++
          (([200] : List Nat).map fun v => [v, v, v]).flatten),
        1, 1⟩ :=
  ⟨by decide, claim_C4_gray_save 1 1 [200] (by decide)⟩

/-- C5 counterexample: the claim says a buffer whose number of
dimensions differs from 2 — whether more or fewer — is rejected.  The
code only asserts `num_dimensions() > 2`, so a 1-dimensional buffer
(`numDims = 1`) is accepted and written normally rather than raising a
precondition error. -/
theorem claim_C5_counterexample :
    (save_to_ppm ⟨4, 1, .U8, 1, [1, 2, 3, 4]⟩).result =
      .ok ([80, 54, 10, 52, 32, 49, 32, 50, 53, 53, 10] ++
        [1, 1, 1, 2, 2, 2, 3, 3, 3, 4, 4, 4]) := by
  decide

/-- C5 (amended): `save_to_ppm` raises a fatal precondition error
(distinct from the I/O error kind) exactly when the buffer's format is
neither `RGB888` nor `Grayscale8`/`U8`, or the buffer has more than two
dimensions; a buffer reporting fewer than two dimensions (possible,
since the library collapses trailing unit dimensions) passes the
dimension check. -/
theorem claim_C5_amended (img : Image) :
    (save_to_ppm img).result = .error SaveError.precondition ↔
      (¬(img.format = .RGB888 ∨ img.format = .U8) ∨ 2 < img.numDims) := by
  rcases img with ⟨w, h, fmt, nd, data⟩
  by_cases hnd : 2 < nd
  · cases fmt <;> simp [save_to_ppm, hnd]
  · cases fmt <;> simp [save_to_ppm, hnd]

/-- C6: `PPMLoader::open` fails on every file whose parsed header
declares `maxValue ≥ 256` (so such a session never reaches `fill`),
and on an otherwise well-formed header with `maxValue < 256` it
succeeds, recording only the width and the height (the loader stores
nothing else besides the stream). -/
theorem claim_C6_maxval (file rest : List Nat) (w h mv : Nat)
    (hp : parse_ppm_header file = some (w, h, mv, rest)) :
    (256 ≤ mv → PPMLoader.openFile file = .error OpenError.maxValTooBig) ∧
    (mv < 256 → PPMLoader.openFile file = .ok ⟨rest, w, h⟩) := by
  constructor
  · intro hmv
    simp [PPMLoader.openFile, hp, hmv]
  · intro hmv
    have hnot : ¬(256 ≤ mv) := by omega
    simp [PPMLoader.openFile, hp, hnot]

/-- Witness for C6 on the file `"P6\n1 1\n300\n"` (maxValue 300). -/
theorem claim_C6_maxval_witness :
    parse_ppm_header [80, 54, 10, 49, 32, 49, 10, 51, 48, 48, 10] =
      some (1, 1, 300, []) ∧ 256 ≤ 300 ∧
    PPMLoader.openFile [80, 54, 10, 49, 32, 49, 10, 51, 48, 48, 10] =
      .error OpenError.maxValTooBig :=
  ⟨by decide, by decide,
    (claim_C6_maxval [80, 54, 10, 49, 32, 49, 10, 51, 48, 48, 10] [] 1 1 300
      (by decide)).1 (by decide)⟩

/-- C7 (code bug, claim right / code wrong): the claim says that in
both `fill_image` and `save_to_ppm` the buffer is mapped before any
pixel access and unmapped exactly once on every exit path.  In the
code, `unmap` is only reached on the success path: both the fatal
"Not enough data in file" check and the `catch` of a stream failure
leave the function after `map` without ever calling `unmap` (the
`catch` block has no `unmap`), so on those paths the buffer stays
mapped (`maps = 1`, `unmaps = 0`).  Success paths balance, and
precondition failures exit before `map`. -/
theorem claim_C7_unmap_on_error :
    fill_image ⟨[9, 9], 1, 1⟩ ⟨1, 1, .RGB888, 2, [0, 0, 0]⟩ =
      ⟨.error .notEnoughData, 1, 0⟩ ∧
    fill_image ⟨[7], 1, 1⟩ ⟨1, 1, .U8, 2, [0]⟩ =
      ⟨.error .streamFailure, 1, 0⟩ ∧
    fill_image ⟨[10, 20, 30], 1, 1⟩ ⟨1, 1, .RGB888, 2, [0, 0, 0]⟩ =
      ⟨.ok ([10, 20, 30], []), 1, 1⟩ ∧
    save_to_ppm ⟨1, 1, .U8, 2, [5]⟩ =
      ⟨.ok (headerBytes 1 1 ++ [5, 5, 5]), 1, 1⟩ ∧
    fill_image ⟨[0, 0, 0], 1, 1⟩ ⟨2, 1, .RGB888, 2, [0, 0, 0]⟩ =
      ⟨.error .precondition, 0, 0⟩ ∧
    save_to_ppm ⟨1, 1, .U8, 3, [5]⟩ = ⟨.error .precondition, 0, 0⟩ := by
  decide

/-- C8: the header parser accepts exactly the `P6` magic (any other
two-byte magic yields a parse failure), skips whitespace and `#`
comments between tokens, reads width, height and max value in that
order, consumes exactly one whitespace character after the max value
and leaves the stream at the first pixel byte: for every pixel suffix,
`"P6\n# comment\n4 2\n255\n"` parses identically to
`"P6\n4 2\n255\n"`, yielding width 4, height 2, max value 255 and the
untouched suffix. -/
theorem claim_C8_header_parse :
    (∀ rest : List Nat,
      parse_ppm_header ([80, 54, 10, 35, 32, 99, 111, 109, 109, 101, 110,
          116, 10, 52, 32, 50, 10, 50, 53, 53, 10] ++ rest) =
        some (4, 2, 255, rest) ∧
      parse_ppm_header ([80, 54, 10, 52, 32, 50, 10, 50, 53, 53, 10] ++ rest) =
        some (4, 2, 255, rest)) ∧
    (∀ (b0 b1 : Nat) (l : List Nat), ¬(b0 = 80 ∧ b1 = 54) →
      parse_ppm_header (b0 :: b1 :: l) = none) := by
  constructor
  · intro rest
    constructor <;> rfl
  · intro b0 b1 l hmagic
    simp [parse_ppm_header, hmagic]

/-- Witness for C8's magic rejection at the bytes `"P5"`. -/
theorem claim_C8_header_parse_witness :
    ¬((80 : Nat) = 80 ∧ (53 : Nat) = 54) ∧
    parse_ppm_header [80, 53, 10] = none :=
  ⟨by decide, claim_C8_header_parse.2 80 53 [10] (by decide)⟩

/-- C9: when the parsed width or height is zero (so `w * h = 0`) and
the destination matches, `fill_image` succeeds without consuming any
stream byte (the windows are empty and the size check trivially
passes), and `save_to_ppm` on such a buffer writes exactly the header
and no pixel bytes. -/
theorem claim_C9_degenerate (w h : Nat) (fmt : Format) (fs old : List Nat)
    (hwh : w * h = 0) (hfmt : fmt = .U8 ∨ fmt = .RGB888)
    (hold : old.length = w * h * fmt.elementSize) :
    fill_image ⟨fs, w, h⟩ ⟨w, h, fmt, 2, old⟩ = ⟨.ok ([], fs), 1, 1⟩ ∧
    (save_to_ppm ⟨w, h, fmt, 2, old⟩).result = .ok (headerBytes w h) := by
  have holdnil : old = [] := by
    rw [hwh] at hold
    simp only [Nat.zero_mul] at hold
    exact List.length_eq_zero.mp hold
  subst holdnil
  rcases hfmt with hf | hf <;> subst hf
  · have hck : ¬(fs.length < w * h * Format.elementSize .U8) := by
      rw [hwh]; simp
    have hfg : fillGray (w * h) fs = some ([], fs) := by rw [hwh]; rfl
    constructor
    · simp [fill_image, hck, hfg]
    · simp [save_to_ppm, grayPixels]
  · have hck : ¬(fs.length < w * h * Format.elementSize .RGB888) := by
      rw [hwh]; simp
    have hfr : fillRows (w * Format.elementSize .RGB888) h fs =
        some ([], fs) := by
      rcases Nat.mul_eq_zero.mp hwh with hw0 | hh0
      · rw [hw0]
        simpa using fillRows_zero_width h fs
      · rw [hh0]
        rfl
    constructor
    · simp [fill_image, hck, hfr]
    · simp [save_to_ppm, rowChunks_nil]

/-- Witness for C9 at `w = 0`, `h = 3`, format `U8`, a nonempty
remaining stream. -/
theorem claim_C9_degenerate_witness :
    (0 * 3 = 0 ∧ (Format.U8 = Format.U8 ∨ Format.U8 = Format.RGB888) ∧
      ([] : List Nat).length = 0 * 3 * Format.elementSize .U8) ∧
    fill_image ⟨[1, 2, 3], 0, 3⟩ ⟨0, 3, .U8, 2, []⟩ =
      ⟨.ok ([], [1, 2, 3]), 1, 1⟩ ∧
    (save_to_ppm ⟨0, 3, .U8, 2, []⟩).result = .ok (headerBytes 0 3) :=
  ⟨⟨by decide, by decide, by decide⟩,
    claim_C9_degenerate 0 3 .U8 [1, 2, 3] [] (by decide) (by decide)
      (by decide)⟩

/-- C10: for every buffer `save_to_ppm` accepts, the pixel bytes
written after the header number exactly `3 * width * height`,
regardless of source format (a `Grayscale8` pixel contributes 3 bytes
by replication; an `RGB888` row contributes `width * elementSize = 3 *
width` bytes over `height` rows), so grayscale and colour inputs of the
same shape produce files of identical length. -/
theorem claim_C10_size (w h : Nat) (fmt : Format) (data : List Nat)
    (hfmt : fmt = .U8 ∨ fmt = .RGB888)
    (hlen : data.length = w * h * fmt.elementSize) :
    ∃ out, (save_to_ppm ⟨w, h, fmt, 2, data⟩).result = .ok out ∧
      out.length = (headerBytes w h).length + 3 * (w * h) := by
  rcases hfmt with hf | hf <;> subst hf
  · refine ⟨headerBytes w h ++ grayPixels data, ?_, ?_⟩
    · simp [save_to_ppm]
    · have h1 : data.length = w * h := by
        simpa [Format.elementSize] using hlen
      simp [List.length_append, grayPixels_length, h1]
  · have he : Format.elementSize .RGB888 = 3 := rfl
    have hlen3 : data.length = w * Format.elementSize .RGB888 * h := by
      rw [hlen, he]; ring
    refine ⟨headerBytes w h ++ data, ?_, ?_⟩
    · simp [save_to_ppm, rowChunks_eq_self _ h data hlen3]
    · have h2 : data.length = 3 * (w * h) := by
        rw [hlen, he]; ring
      simp [List.length_append, h2]

/-- Witness for C10 at a 1x2 `RGB888` buffer. -/
theorem claim_C10_size_witness :
    ((Format.RGB888 = Format.U8 ∨ Format.RGB888 = Format.RGB888) ∧
      ([1, 2, 3, 4, 5, 6] : List Nat).length =
        1 * 2 * Format.elementSize .RGB888) ∧
    (∃ out, (save_to_ppm ⟨1, 2, .RGB888, 2, [1, 2, 3, 4, 5, 6]⟩).result =
        .ok out ∧
      out.length = (headerBytes 1 2).length + 3 * (1 * 2)) :=
  ⟨⟨by decide, by decide⟩,
    claim_C10_size 1 2 .RGB888 [1, 2, 3, 4, 5, 6] (by decide) (by decide)⟩

end ComputeUtils
